import Mathlib

/-!
# Verification of the mstickereditor import pipeline

Shallow embedding of the sticker-pack import pipeline of the
mstickereditor repository, together with proofs about the claims of its
specification.

The embedding covers:

* the library-side pack import of mstickerlib (stickerpack.rs):
  gathering per-sticker outcomes in input order (the join_all of the
  futures crate, modelled as slot filling under an arbitrary completion
  schedule) and partitioning them into the success list and the
  positional failure list;
* the binary-side import subcommand (sub_commands/import.rs):
  loading the fingerprint store, the per-sticker convert / save /
  dedup-lookup / upload phase, and the final append of new records to
  the persistent store;
* the pack loop of the run function.

External crates and modules (the Telegram HTTP API, the Matrix upload,
flate2 gzip decompression, rlottie, libwebp, sha2, serde_json, the
filesystem) are modelled as oracle functions collected in an
environment record: the pipeline logic under verification is exactly
the code of the repository, the oracles are its boundary.
-/

set_option autoImplicit false

namespace MStickerEditor

universe u v

/-! ## Library-side import (mstickerlib/src/tg/stickerpack.rs)

`StickerPack::import` maps `Sticker::import` over the stickers, awaits
all futures with `join_all`, and then partitions the outcome vector by
index: `Ok(value)` is pushed onto `ok_stickers`, `Err(err)` is pushed
onto `err_stickers` together with the sticker position `i`.
`E` is the error type (anyhow::Error) and `A` the matrix sticker type;
both are opaque to the partition logic, so they stay type parameters. -/

variable {E : Type u} {A : Type v}

/-- The partition loop of `StickerPack::import` (stickerpack.rs lines
66-73), written as structural recursion: `i` is the position of the
first element of the remaining list.  Pushing onto the end of the two
vectors in increasing `i` order produces the same lists as consing the
recursive results. -/
def reduceGo (i : Nat) : List (Except E A) → List A × List (Nat × E)
  | [] => ([], [])
  | r :: rs =>
    let rest := reduceGo (i + 1) rs
    match r with
    | Except.ok v => (v :: rest.1, rest.2)
    | Except.error e => (rest.1, (i, e) :: rest.2)

/-- The partition of the gathered outcome list, positions starting at 0
(the `enumerate` of the source). -/
def reduceOutcomes (r : List (Except E A)) : List A × List (Nat × E) :=
  reduceGo 0 r

/-- The matrix sticker pack built at the end of `StickerPack::import`
(stickerpack.rs lines 75-80).  The `tg_pack` back-reference is kept as
the source pack name summary. -/
structure MatrixPack (A : Type v) where
  title : String
  id : String
  tg_pack : Option String
  stickers : List A

/-- `StickerPack::import` after the parallel phase: partition the
per-sticker outcomes (indexed by original position) and assemble the
matrix pack.  Returns the pack together with the positional failure
list. -/
def importPackLib (title name : String) (tgSummary : Option String)
    (outcomes : List (Except E A)) : MatrixPack A × List (Nat × E) :=
  let parts := reduceOutcomes outcomes
  ({ title := title, id := "tg_name_" ++ name, tg_pack := tgSummary,
     stickers := parts.1 }, parts.2)

/-- Number of failure entries carrying position `n`. -/
def errCount (n : Nat) (l : List (Nat × E)) : Nat :=
  l.countP (fun p => p.1 == n)

/-! ### The gather step of the parallel phase

`join_all` (futures crate) polls all per-sticker futures and stores
each result, as it completes, into the slot of its own future; the
gathered vector is returned once all slots are filled.  We model a run
of the parallel phase by its completion schedule: the list of
(position, outcome) pairs in completion order, an arbitrary permutation
of the per-position outcomes.  The same model covers the rayon
`par_iter().enumerate().map(...).collect()` of the binary, whose
indexed collect also stores each result at its own index. -/

/-- Store each completed result into the slot of its position. -/
def fillSlots (acc : List (Option A)) : List (Nat × A) → List (Option A)
  | [] => acc
  | c :: cs => fillSlots (acc.set c.1 (some c.2)) cs

/-- The gathered outcome vector of a parallel phase over `n` stickers
under a given completion schedule. -/
def gatherResults (n : Nat) (schedule : List (Nat × A)) : List (Option A) :=
  fillSlots (List.replicate n none) schedule

/-- `join_all` returns the plain result vector once every slot is
filled. -/
def stripSlots (l : List (Option A)) : List A :=
  l.filterMap id

/-! ## Binary-side import (src/sub_commands/import.rs)

The binary subcommand repeats the pipeline with its own types: a
BTreeMap from sha512 hashes to matrix urls as the dedup store, a rayon
parallel iterator as the fan-out, and plain printing for per-sticker
errors.  Bytes are lists of byte values, hashes stay abstract numbers
(the sha2 digest is an oracle). -/

/-- A byte buffer (Vec of u8). -/
abbrev Bytes := List Nat

/-- A sha512 digest value (GenericArray of u8, 64 bytes), kept
abstract. -/
abbrev HashT := Nat

/-- The in-memory fingerprint store: the BTreeMap from hash to matrix
url, modelled as an association list without duplicate keys, with
insert-overwrite semantics. -/
abbrev Tree := List (HashT × String)

/-- BTreeMap::insert: overwrite the value of an existing key, append
otherwise. -/
def insertTree (t : Tree) (k : HashT) (v : String) : Tree :=
  match t with
  | [] => [(k, v)]
  | (k1, v1) :: rest =>
    if k1 = k then (k, v) :: rest else (k1, v1) :: insertTree rest k v

/-- BTreeMap::get. -/
def lookupTree (t : Tree) (k : HashT) : Option String :=
  match t with
  | [] => none
  | (k1, v1) :: rest => if k1 = k then some v1 else lookupTree rest k

/-- Characters of the last path component (after the final slash);
models std Path file_name for the Unix-style paths the program
builds. -/
def lastComponent (s : List Char) : List Char :=
  s.foldl (fun acc c => if c = '/' then [] else acc ++ [c]) []

/-- Characters after the last dot of a character list, none when no dot
occurs. -/
def afterLastDot (l : List Char) : Option (List Char) :=
  l.foldl (fun acc c => if c = '.' then some [] else acc.map (fun e => e ++ [c]))
    none

/-- Models Rust std `Path::extension`: the portion of the file name
after the final dot, none when the file name has no embedded dot (a
leading dot alone does not start an extension). -/
def pathExtension (s : String) : Option String :=
  match lastComponent s.data with
  | [] => none
  | _ :: rest => (afterLastDot rest).map (fun l => String.mk l)

/-- Suffix test on strings, models str::ends_with. -/
def strEndsWith (s suffix : String) : Bool :=
  suffix.data.isSuffixOf s.data

/-- A telegram sticker as deserialized from getStickerSet
(mstickerlib/src/tg/sticker.rs). -/
structure TgSticker where
  emoji : String
  file_id : String
  width : Nat
  height : Nat
  is_video : Bool

/-- The output record built per successfully imported sticker (struct
Sticker of import.rs, lines 54-64). -/
structure Sticker where
  file_hash : HashT
  mxc_url : String
  file_id : String
  emoji : String
  width : Nat
  height : Nat
  file_size : Nat
  mimetype : String

/-- The import subcommand flags (struct Opt, import.rs lines 26-44);
the pack url list is handled separately by run. -/
structure Opt where
  save : Bool
  noupload : Bool
  noformat : Bool

/-- Oracles for the external collaborators of import_pack, indexed per
sticker position where the call depends on the sticker: the Telegram
file query and download, gzip decompression (flate2, through the
NamedTempFile), the rlottie animation parse (which yields the native
size) and gif transcode, the webp header parse, the filesystem write,
the sha2 digest, and the Matrix upload (first argument the position of
the calling sticker: the server may answer each call with a different
url).  Errors are strings (anyhow messages). -/
structure Env where
  getStickerFile : Nat → Except String String
  downloadData : Nat → Except String Bytes
  gunzip : Bytes → Except String Bytes
  animationSize : Bytes → Option (Nat × Nat)
  lottieToGif : Bytes → Except String Bytes
  webpGetInfo : Bytes → Except String (Nat × Nat)
  saveFile : List Char → Bytes → Except String Unit
  sha512 : Bytes → HashT
  upload : Nat → String → Bytes → String → Except String String

/-- The convert block of the per-sticker closure (import.rs lines
156-183): when the path ends in .tgs, gzip-decompress into the temp
file, parse the animation to get its native size, and, unless noformat
is set, transcode to gif (replacing the payload and appending .gif to
the path); otherwise parse the webp header for the dimensions.  In the
noformat branch payload and path are returned untouched: the
decompressed bytes exist only in the temp file. -/
def convertSticker (env : Env) (opt : Opt) (filePath : String)
    (data : Bytes) : Except String (String × Bytes × (Nat × Nat)) :=
  if strEndsWith filePath ".tgs" then
    match env.gunzip data with
    | Except.error e => Except.error e
    | Except.ok decompressed =>
      match env.animationSize decompressed with
      | none => Except.error "Failed to load sticker"
      | some size =>
        if !opt.noformat then
          match env.lottieToGif decompressed with
          | Except.error e => Except.error e
          | Except.ok gif => Except.ok (filePath ++ ".gif", gif, size)
        else
          Except.ok (filePath, data, size)
  else
    match env.webpGetInfo data with
    | Except.error e => Except.error e
    | Except.ok wh => Except.ok (filePath, data, wh)

/-- The upload block of the per-sticker closure (import.rs lines
195-233): hash the final payload, derive the mimetype from the final
path extension, consult the in-memory store, and upload only on a
miss.  Returns the built record together with whether the upload
network call was made (the observable effect of the else branch). -/
def uploadSticker (env : Env) (tree : Tree) (i : Nat) (tg : TgSticker)
    (filePath : String) (data : Bytes) (wh : Nat × Nat) :
    Except String (Sticker × Bool) :=
  let hash := env.sha512 data
  match pathExtension filePath with
  | none => Except.error ("ERROR: extracting mimetype from path " ++ filePath)
  | some ext =>
    let mimetype := "image/" ++ ext
    let record : String → Sticker := fun url =>
      { file_hash := hash
        mxc_url := url
        file_id := tg.file_id
        emoji := tg.emoji
        width := wh.1
        height := wh.2
        file_size := data.length
        mimetype := mimetype }
    match lookupTree tree hash with
    | some url => Except.ok (record url, false)
    | none =>
      match env.upload i filePath data mimetype with
      | Except.error e => Except.error e
      | Except.ok url => Except.ok (record url, true)

/-- One unit of the rayon fan-out (import.rs lines 148-238): fetch the
file path and payload, convert, optionally save to disk, and - unless
uploads are disabled - hash, look up and upload.  A none record means
uploads were disabled; the Bool records whether an upload call was
made. -/
def processSticker (env : Env) (opt : Opt) (tree : Tree) (i : Nat)
    (tg : TgSticker) : Except String (Option Sticker × Bool) :=
  match env.getStickerFile i with
  | Except.error e => Except.error e
  | Except.ok filePath =>
    match env.downloadData i with
    | Except.error e => Except.error e
    | Except.ok data =>
      match convertSticker env opt filePath data with
      | Except.error e => Except.error e
      | Except.ok (path2, data2, wh) =>
        match (if opt.save then env.saveFile (lastComponent path2.data) data2
               else Except.ok ()) with
        | Except.error e => Except.error e
        | Except.ok _ =>
          if opt.noupload then Except.ok (none, false)
          else
            match uploadSticker env tree i tg path2 data2 wh with
            | Except.error e => Except.error e
            | Except.ok (s, up) => Except.ok (some s, up)

/-- The per-sticker results of the fan-out, indexed by original
position (rayon's indexed collect preserves input order: this is the
schedule independence proved for the gather model above). -/
def importResults (env : Env) (opt : Opt) (tree : Tree)
    (pack : List TgSticker) : List (Except String (Option Sticker × Bool)) :=
  pack.enum.map (fun p => processSticker env opt tree p.1 p.2)

/-- The success vector of import_pack: the filter_map keeps the
Ok(Some) records and drops upload-disabled and failed stickers. -/
def importSuccesses (env : Env) (opt : Opt) (tree : Tree)
    (pack : List TgSticker) : List Sticker :=
  (importResults env opt tree pack).filterMap (fun r =>
    match r with
    | Except.ok (some s, _) => some s
    | _ => none)

/-- The positions whose closure returned an error, with the error:
these are printed (and then dropped) by the filter_map of
import_pack. -/
def importFailures (env : Env) (opt : Opt) (tree : Tree)
    (pack : List TgSticker) : List (Nat × String) :=
  (importResults env opt tree pack).enum.filterMap (fun p =>
    match p.2 with
    | Except.error e => some (p.1, e)
    | _ => none)

/-- The number of upload calls made during the fan-out. -/
def uploadCalls (env : Env) (opt : Opt) (tree : Tree)
    (pack : List TgSticker) : Nat :=
  (importResults env opt tree pack).countP (fun r =>
    match r with
    | Except.ok (_, true) => true
    | _ => false)

/-- The records written to the persistent store after the parallel
phase (import.rs lines 249-261): when uploads are enabled, one
hash-url line per success record, taken from the success vector in
order. -/
def appendedRecords (env : Env) (opt : Opt) (tree : Tree)
    (pack : List TgSticker) : List (HashT × String) :=
  if opt.noupload then []
  else (importSuccesses env opt tree pack).map (fun s => (s.file_hash, s.mxc_url))

/-- Outcome of File::open on the database file (import.rs lines
100-124): opened with its lines (each line read may itself fail),
missing, or failing with any other error. -/
inductive FileOpen where
  | opened (lines : List (Except String String)) : FileOpen
  | notFound : FileOpen
  | otherError (e : String) : FileOpen

/-- The line-reading loop of import_pack (lines 102-117): each readable
line is parsed (serde_json, the parse oracle); a well-formed record is
inserted into the tree, a malformed line is skipped with a warning
carrying its 1-based line number, and a line read error aborts the
whole function with that error (the question-mark on line).  `i` is the
0-based index of the next line. -/
def loadLines (parse : String → Except String (HashT × String)) (tree : Tree)
    (warns : List (Nat × String)) (i : Nat) :
    List (Except String String) → Except String (Tree × List (Nat × String))
  | [] => Except.ok (tree, warns)
  | l :: rest =>
    match l with
    | Except.error e => Except.error e
    | Except.ok s =>
      match parse s with
      | Except.ok r => loadLines parse (insertTree tree r.1 r.2) warns (i + 1) rest
      | Except.error e =>
        loadLines parse tree (warns ++ [(i + 1, e)]) (i + 1) rest

/-- Loading the database at the start of import_pack (lines 100-124): a
missing file yields the empty tree (a message is printed), any other
open error is returned, which aborts import_pack. -/
def loadDatabase (fo : FileOpen)
    (parse : String → Except String (HashT × String)) :
    Except String (Tree × List (Nat × String)) :=
  match fo with
  | FileOpen.notFound => Except.ok ([], [])
  | FileOpen.otherError e => Except.error e
  | FileOpen.opened lines => loadLines parse [] [] 0 lines

/-- The pack loop of run (import.rs lines 86-89): packs are imported in
order and the question-mark on import_pack ends the loop at the first
failing pack.  Returns the packs imported successfully, in order, and
the error that stopped the run, if any. -/
def runLoop (importOne : String → Except String Unit) :
    List String → List String × Option String
  | [] => ([], none)
  | p :: rest =>
    match importOne p with
    | Except.ok _ =>
      let r := runLoop importOne rest
      (p :: r.1, r.2)
    | Except.error e => ([], some e)

/-! ### Concrete fixtures

Small closed instances used by the counterexamples and witnesses. -/

/-- A static-webp environment on which every step succeeds: every
download yields the one-byte payload, whose digest is 7, and each
upload answers with a reference derived from the calling position. -/
def envWebp : Env where
  getStickerFile := fun _ => Except.ok "a.webp"
  downloadData := fun _ => Except.ok [7]
  gunzip := fun _ => Except.error "not gzip"
  animationSize := fun _ => none
  lottieToGif := fun _ => Except.error "not lottie"
  webpGetInfo := fun _ => Except.ok (512, 512)
  saveFile := fun _ _ => Except.ok ()
  sha512 := fun d => d.foldl (fun a b => a + b) 0
  upload := fun i _ _ _ => Except.ok ("mxc" ++ Nat.repr i)

/-- An animated (.tgs) environment: the downloaded payload is the
two-byte compressed blob, which decompresses to three bytes. -/
def envTgs : Env where
  getStickerFile := fun _ => Except.ok "sticker.tgs"
  downloadData := fun _ => Except.ok [0, 1]
  gunzip := fun d =>
    if d = [0, 1] then Except.ok [2, 3, 4] else Except.error "bad gzip"
  animationSize := fun _ => some (5, 5)
  lottieToGif := fun _ => Except.ok [9, 9, 9, 9]
  webpGetInfo := fun _ => Except.error "not webp"
  saveFile := fun _ _ => Except.ok ()
  sha512 := fun d => d.foldl (fun a b => a + b) 0
  upload := fun i _ _ _ => Except.ok ("mxc" ++ Nat.repr i)

/-- A telegram sticker fixture. -/
def tgOne : TgSticker :=
  { emoji := "e", file_id := "f1", width := 512, height := 512,
    is_video := false }

/-- A pack of two byte-identical stickers. -/
def packTwo : List TgSticker := [tgOne, tgOne]

/-- A singleton pack. -/
def packOne : List TgSticker := [tgOne]

/-- A store already holding the digest of the envWebp payload. -/
def treeStored : Tree := [(7, "stored")]

/-- Default flags: no save, uploads enabled, formatting enabled. -/
def optPlain : Opt := { save := false, noupload := false, noformat := false }

/-- Flags with uploads disabled. -/
def optNoUpload : Opt := { save := false, noupload := true, noformat := false }

/-- Flags with formatting disabled. -/
def optNoFormat : Opt := { save := false, noupload := false, noformat := true }

/-- An import_pack stand-in whose metadata fetch fails on pack A only
(modelling get_stickerpack returning an error for that pack). -/
def importOneAborts : String → Except String Unit :=
  fun p => if p = "A" then Except.error "metadata fetch failed" else Except.ok ()

/-! ## Theorems -/

theorem reduceGo_keys_ge (k : Nat) (r : List (Except E A)) :
    ∀ p ∈ (reduceGo k r).2, k ≤ p.1 := by
  induction r generalizing k with
  | nil => intro p hp; simp [reduceGo] at hp
  | cons x rs ih =>
    intro p hp
    cases x with
    | ok v =>
      simp only [reduceGo] at hp
      exact Nat.le_of_succ_le (ih (k + 1) p hp)
    | error e =>
      simp only [reduceGo, List.mem_cons] at hp
      cases hp with
      | inl h => subst h; exact Nat.le_refl k
      | inr h => exact Nat.le_of_succ_le (ih (k + 1) p h)

theorem reduceGo_fst_eq (k : Nat) (r : List (Except E A)) :
    (reduceGo k r).1 = r.filterMap (fun x => x.toOption) := by
  induction r generalizing k with
  | nil => rfl
  | cons x rs ih =>
    cases x with
    | ok v => simp [reduceGo, List.filterMap_cons, Except.toOption, ih (k + 1)]
    | error e => simp [reduceGo, List.filterMap_cons, Except.toOption, ih (k + 1)]

theorem c1_go (k : Nat) (r : List (Except E A)) (i : Nat) (h : i < r.length) :
    (∀ a, r.get ⟨i, h⟩ = Except.ok a →
      a ∈ (reduceGo k r).1 ∧ errCount (k + i) (reduceGo k r).2 = 0)
  ∧ (∀ e, r.get ⟨i, h⟩ = Except.error e →
      (k + i, e) ∈ (reduceGo k r).2 ∧ errCount (k + i) (reduceGo k r).2 = 1) := by
  induction r generalizing k i with
  | nil => exact absurd h (Nat.not_lt_zero i)
  | cons x rs ih =>
    cases i with
    | zero =>
      constructor
      · intro a ha
        simp only [List.get] at ha
        subst ha
        constructor
        · simp [reduceGo]
        · simp only [reduceGo, errCount]
          rw [List.countP_eq_zero]
          intro p hp
          have := reduceGo_keys_ge (k + 1) rs p hp
          simp only [beq_iff_eq, decide_eq_true_eq]
          omega
      · intro e he
        simp only [List.get] at he
        subst he
        constructor
        · simp [reduceGo]
        · simp only [reduceGo, errCount, Nat.add_zero, List.countP_cons]
          have h0 : List.countP (fun p => p.1 == k) (reduceGo (k + 1) rs).2 = 0 := by
            rw [List.countP_eq_zero]
            intro p hp
            have := reduceGo_keys_ge (k + 1) rs p hp
            simp only [beq_iff_eq, decide_eq_true_eq]
            omega
          simp [h0]
    | succ i' =>
      have hlt : i' < rs.length := Nat.lt_of_succ_lt_succ h
      have ihx := ih (k + 1) i' hlt
      have harith : k + (i' + 1) = (k + 1) + i' := by omega
      constructor
      · intro a ha
        simp only [List.get] at ha
        have := (ihx.1 a ha)
        cases x with
        | ok v =>
          refine ⟨List.mem_cons_of_mem v this.1, ?_⟩
          simpa [reduceGo, errCount, harith] using this.2
        | error e =>
          refine ⟨by simpa [reduceGo] using this.1, ?_⟩
          simp only [reduceGo, errCount, List.countP_cons]
          have hne : ¬(k == k + (i' + 1)) = true := by
            simp only [beq_iff_eq]; omega
          simp only [errCount, harith] at this ⊢
          simp [this.2, hne]
          omega
      · intro e he
        simp only [List.get] at he
        have := (ihx.2 e he)
        cases x with
        | ok v =>
          refine ⟨?_, ?_⟩
          · simpa [reduceGo, harith] using this.1
          · simpa [reduceGo, errCount, harith] using this.2
        | error e' =>
          refine ⟨?_, ?_⟩
          · simp only [reduceGo]
            exact List.mem_cons_of_mem _ (by simpa [harith] using this.1)
          · simp only [reduceGo, errCount, List.countP_cons]
            have hne : ¬(k == k + (i' + 1)) = true := by
              simp only [beq_iff_eq]; omega
            simp only [errCount, harith] at this ⊢
            simp [this.2, hne]
            omega

theorem reduceGo_snd_pairwise (k : Nat) (r : List (Except E A)) :
    List.Pairwise (fun p q => p.1 < q.1) (reduceGo k r).2 := by
  induction r generalizing k with
  | nil => simp [reduceGo]
  | cons x rs ih =>
    cases x with
    | ok v => simpa [reduceGo] using ih (k + 1)
    | error e =>
      simp only [reduceGo]
      refine List.Pairwise.cons ?_ (ih (k + 1))
      intro q hq
      have := reduceGo_keys_ge (k + 1) rs q hq
      omega

/-- Claim C1: for every input pack and every sticker position `i`, when
uploads are enabled (each sticker yields an ok-or-error outcome), the
result of `StickerPack::import` contains position `i` in exactly one of
the two output sequences: the value of an `Ok` outcome at `i` is in the
success list and no failure entry carries position `i`, while an `Err`
outcome at `i` produces exactly one failure entry `(i, e)`. -/
theorem import_position_in_exactly_one_list (title name : String)
    (tgSummary : Option String) (r : List (Except E A)) (i : Nat)
    (h : i < r.length) :
    (∀ a, r.get ⟨i, h⟩ = Except.ok a →
      a ∈ (importPackLib title name tgSummary r).1.stickers ∧
      errCount i (importPackLib title name tgSummary r).2 = 0)
  ∧ (∀ e, r.get ⟨i, h⟩ = Except.error e →
      (i, e) ∈ (importPackLib title name tgSummary r).2 ∧
      errCount i (importPackLib title name tgSummary r).2 = 1) := by
  have hg := c1_go 0 r i h
  simpa [importPackLib, reduceOutcomes, Nat.zero_add] using hg

theorem import_position_in_exactly_one_list_witness :
    1 < [Except.ok (5 : Nat), Except.error "boom"].length ∧
    ((1, "boom") ∈
        (importPackLib "title" "name" none
          [Except.ok (5 : Nat), Except.error "boom"]).2 ∧
      errCount 1
        (importPackLib "title" "name" none
          [Except.ok (5 : Nat), Except.error "boom"]).2 = 1) :=
  ⟨by decide,
    (import_position_in_exactly_one_list "title" "name" none
      [Except.ok (5 : Nat), Except.error "boom"] 1 (by decide)).2 "boom" rfl⟩

theorem fillSlots_append (acc : List (Option A)) (l1 l2 : List (Nat × A)) :
    fillSlots acc (l1 ++ l2) = fillSlots (fillSlots acc l1) l2 := by
  induction l1 generalizing acc with
  | nil => rfl
  | cons c cs ih => simp [fillSlots, ih]

theorem fillSlots_length (acc : List (Option A)) (cs : List (Nat × A)) :
    (fillSlots acc cs).length = acc.length := by
  induction cs generalizing acc with
  | nil => rfl
  | cons c cs ih => simp [fillSlots, ih]

theorem fillSlots_get_of_not_mem (acc : List (Option A)) (cs : List (Nat × A))
    (j : Nat) (hj : ∀ p ∈ cs, p.1 ≠ j) :
    (fillSlots acc cs).get? j = acc.get? j := by
  induction cs generalizing acc with
  | nil => rfl
  | cons c cs ih =>
    simp only [fillSlots]
    rw [ih _ (fun p hp => hj p (List.mem_cons_of_mem c hp))]
    exact List.get?_set_ne _ _ (hj c (List.mem_cons_self c cs))

/-- The gathered vector is independent of the completion schedule: any
permutation of the per-position completions fills every slot `i < n`
with the outcome of position `i`. -/
theorem gatherResults_perm (n : Nat) (f : Nat → A) (schedule : List (Nat × A))
    (hperm : schedule.Perm ((List.range n).map (fun i => (i, f i)))) :
    gatherResults n schedule = (List.range n).map (fun i => some (f i)) := by
  have hlen : (gatherResults n schedule).length = n := by
    simp [gatherResults, fillSlots_length]
  have hkeys : (schedule.map Prod.fst).Nodup := by
    have h1 : (schedule.map Prod.fst).Perm
        (((List.range n).map (fun i => (i, f i))).map Prod.fst) :=
      hperm.map Prod.fst
    have h2 : ((List.range n).map (fun i => (i, f i))).map Prod.fst
        = List.range n := by
      rw [List.map_map]
      have hc : (Prod.fst ∘ fun i : Nat => (i, f i)) = fun i : Nat => i := rfl
      rw [hc, List.map_id']
    rw [h2] at h1
    exact h1.nodup_iff.mpr (List.nodup_range n)
  apply List.ext_get?'
  intro j hj
  rw [hlen, List.length_map, List.length_range, Nat.max_self] at hj
  have hmem : (j, f j) ∈ schedule := by
    rw [hperm.mem_iff]
    exact List.mem_map_of_mem _ (List.mem_range.mpr hj)
  obtain ⟨l1, l2, hsplit⟩ := List.append_of_mem hmem
  have hl2 : ∀ p ∈ l2, p.1 ≠ j := by
    intro p hp
    have : (l1.map Prod.fst ++ j :: l2.map Prod.fst).Nodup := by
      have := hkeys
      rw [hsplit] at this
      simpa using this
    have hnd := (List.nodup_append.mp this).2.1
    intro hpj
    exact (List.nodup_cons.mp hnd).1 (hpj ▸ List.mem_map_of_mem Prod.fst hp)
  rw [hsplit]
  unfold gatherResults
  rw [fillSlots_append]
  have hj' : j < (fillSlots (List.replicate n none) l1).length := by
    rw [fillSlots_length, List.length_replicate]; exact hj
  calc (fillSlots (fillSlots (List.replicate n none) l1) ((j, f j) :: l2)).get? j
      = ((fillSlots (List.replicate n none) l1).set j (some (f j))).get? j := by
        rw [show fillSlots (fillSlots (List.replicate n none) l1) ((j, f j) :: l2)
            = fillSlots ((fillSlots (List.replicate n none) l1).set j (some (f j))) l2
            from rfl]
        exact fillSlots_get_of_not_mem _ l2 j hl2
    _ = some (some (f j)) := List.get?_set_eq_of_lt _ hj'
    _ = ((List.range n).map (fun i => some (f i))).get? j := by
        rw [List.get?_map, List.get?_range hj]; rfl

theorem stripSlots_map_some (l : List A) : stripSlots (l.map some) = l := by
  induction l with
  | nil => rfl
  | cons x xs ih =>
    have hstep : stripSlots ((x :: xs).map some)
        = x :: stripSlots (xs.map some) := rfl
    rw [hstep, ih]

theorem get?_split {α : Type u} (r : List α) (i : Nat) (x : α)
    (h : r.get? i = some x) : ∃ s t, r = s ++ x :: t ∧ s.length = i := by
  induction r generalizing i with
  | nil => simp [List.get?] at h
  | cons y rs ih =>
    cases i with
    | zero =>
      simp only [List.get?] at h
      injection h with h'
      subst h'
      exact ⟨[], rs, rfl, rfl⟩
    | succ i' =>
      simp only [List.get?] at h
      obtain ⟨s, t, hst, hlen⟩ := ih i' h
      exact ⟨y :: s, t, by simp [hst], by simp [hlen]⟩

theorem filterMap_order {α : Type u} {β : Type v} (P : α → Option β)
    (r : List α) (i j : Nat) (x y : α) (a b : β)
    (hij : i < j) (hi : r.get? i = some x) (hj : r.get? j = some y)
    (ha : P x = some a) (hb : P y = some b) :
    ∃ p q, p < q ∧ (r.filterMap P).get? p = some a ∧
      (r.filterMap P).get? q = some b := by
  obtain ⟨s, t, hst, hslen⟩ := get?_split r i x hi
  have hjt : t.get? (j - i - 1) = some y := by
    rw [hst] at hj
    rw [List.get?_append_right (by omega)] at hj
    simp only [hslen] at hj
    cases hji : j - i with
    | zero => omega
    | succ m =>
      rw [hji] at hj
      simp only [List.get?] at hj
      simpa [hji, Nat.succ_sub_one] using hj
  obtain ⟨u, v, huv, _⟩ := get?_split t (j - i - 1) y hjt
  have hr : r = s ++ x :: (u ++ y :: v) := by rw [hst, huv]
  have hfm : r.filterMap P
      = s.filterMap P ++ a :: (u.filterMap P ++ b :: v.filterMap P) := by
    rw [hr]
    simp only [List.filterMap_append, List.filterMap_cons, ha, hb]
  refine ⟨(s.filterMap P).length,
    (s.filterMap P).length + 1 + (u.filterMap P).length, by omega, ?_, ?_⟩
  · rw [hfm, List.get?_append_right (Nat.le_refl _), Nat.sub_self]
    rfl
  · rw [hfm, List.get?_append_right (by omega)]
    have h1 : (s.filterMap P).length + 1 + (u.filterMap P).length
        - (s.filterMap P).length = 1 + (u.filterMap P).length := by omega
    rw [h1]
    have h2 : 1 + (u.filterMap P).length = Nat.succ (u.filterMap P).length := by
      omega
    rw [h2]
    simp only [List.get?]
    rw [List.get?_append_right (Nat.le_refl _), Nat.sub_self]
    rfl

theorem importPackLib_stickers_eq (title name : String)
    (tgSummary : Option String) (r : List (Except E A)) :
    (importPackLib title name tgSummary r).1.stickers
      = r.filterMap (fun x => x.toOption) := by
  simp [importPackLib, reduceOutcomes, reduceGo_fst_eq]

/-- Claim C2: the success list of the import result is ordered by the
stickers' original positions in the source pack, regardless of the
order in which the per-sticker parallel units complete: under any
completion schedule (a permutation of the per-position outcomes), if
positions `i < j` both succeed, the record of `i` precedes the record
of `j` in the returned success list. -/
theorem import_success_list_position_ordered (title name : String)
    (tgSummary : Option String) (n : Nat) (f : Nat → Except E A)
    (schedule : List (Nat × Except E A))
    (hperm : schedule.Perm ((List.range n).map (fun i => (i, f i))))
    (i j : Nat) (hij : i < j) (hjn : j < n) (a b : A)
    (ha : f i = Except.ok a) (hb : f j = Except.ok b) :
    ∃ p q, p < q ∧
      (importPackLib title name tgSummary
        (stripSlots (gatherResults n schedule))).1.stickers.get? p = some a ∧
      (importPackLib title name tgSummary
        (stripSlots (gatherResults n schedule))).1.stickers.get? q = some b := by
  rw [gatherResults_perm n f schedule hperm]
  have hms : (List.range n).map (fun i => some (f i))
      = ((List.range n).map f).map some := by
    rw [List.map_map]; rfl
  rw [hms, stripSlots_map_some, importPackLib_stickers_eq]
  apply filterMap_order (fun x => Except.toOption x) ((List.range n).map f)
    i j (f i) (f j) a b hij
  · rw [List.get?_map, List.get?_range (by omega)]; rfl
  · rw [List.get?_map, List.get?_range hjn]; rfl
  · rw [ha]; rfl
  · rw [hb]; rfl

theorem import_success_list_position_ordered_witness :
    ∃ p q, p < q ∧
      (importPackLib "t" "n" none
        (stripSlots (gatherResults 2
          [((1 : Nat), Except.ok (11 : Nat)),
           ((0 : Nat), (Except.ok 10 : Except String Nat))]))).1.stickers.get? p
        = some 10 ∧
      (importPackLib "t" "n" none
        (stripSlots (gatherResults 2
          [((1 : Nat), Except.ok (11 : Nat)),
           ((0 : Nat), (Except.ok 10 : Except String Nat))]))).1.stickers.get? q
        = some 11 := by
  have hperm : ([((1 : Nat), Except.ok (11 : Nat)),
      ((0 : Nat), (Except.ok 10 : Except String Nat))]).Perm
      ((List.range 2).map
        (fun i => (i, (Except.ok (10 + i) : Except String Nat)))) := by
    have h1 : (List.range 2).map
        (fun i => (i, (Except.ok (10 + i) : Except String Nat)))
        = [((0 : Nat), (Except.ok 10 : Except String Nat)),
           ((1 : Nat), Except.ok 11)] := rfl
    rw [h1]
    exact List.Perm.swap _ _ _
  exact import_success_list_position_ordered "t" "n" none 2
    (fun i => (Except.ok (10 + i) : Except String Nat)) _ hperm 0 1
    (by decide) (by decide) 10 11 rfl rfl

/-- Claim C9: the failure list returned by `StickerPack::import` is
sorted in strictly increasing position order: whenever one entry
precedes another, its position is strictly smaller. -/
theorem import_failure_list_sorted (title name : String)
    (tgSummary : Option String) (r : List (Except E A)) :
    List.Pairwise (fun p q => p.1 < q.1)
      (importPackLib title name tgSummary r).2 := by
  simpa [importPackLib, reduceOutcomes] using reduceGo_snd_pairwise 0 r

theorem processSticker_noupload (env : Env) (opt : Opt) (tree : Tree)
    (i : Nat) (tg : TgSticker) (h : opt.noupload = true) :
    processSticker env opt tree i tg = Except.ok (none, false)
  ∨ ∃ e, processSticker env opt tree i tg = Except.error e := by
  cases hf : env.getStickerFile i with
  | error e => exact Or.inr ⟨e, by simp [processSticker, hf]⟩
  | ok fp =>
    cases hd : env.downloadData i with
    | error e => exact Or.inr ⟨e, by simp [processSticker, hf, hd]⟩
    | ok d =>
      cases hc : convertSticker env opt fp d with
      | error e => exact Or.inr ⟨e, by simp [processSticker, hf, hd, hc]⟩
      | ok triple =>
        obtain ⟨p2, d2, wh⟩ := triple
        cases hs : (if opt.save then env.saveFile (lastComponent p2.data) d2
            else Except.ok ()) with
        | error e =>
          exact Or.inr ⟨e, by simp [processSticker, hf, hd, hc, hs]⟩
        | ok u =>
          exact Or.inl (by simp [processSticker, hf, hd, hc, hs, h])

/-- Claim C8: when uploads are disabled by configuration, importing a
pack yields zero success records, every sticker that completes its
remaining steps yields no record at all (excluded from both lists, no
upload call), and the fetch, convert and save steps still execute and
surface their own errors. -/
theorem noupload_no_records (env : Env) (opt : Opt) (tree : Tree)
    (pack : List TgSticker) (h : opt.noupload = true) :
    importSuccesses env opt tree pack = []
  ∧ (∀ i tg, processSticker env opt tree i tg = Except.ok (none, false)
      ∨ ∃ e, processSticker env opt tree i tg = Except.error e)
  ∧ (∀ i tg e, env.getStickerFile i = Except.error e →
      processSticker env opt tree i tg = Except.error e)
  ∧ (∀ i tg fp d p2 d2 wh e, env.getStickerFile i = Except.ok fp →
      env.downloadData i = Except.ok d →
      convertSticker env opt fp d = Except.ok (p2, d2, wh) →
      opt.save = true →
      env.saveFile (lastComponent p2.data) d2 = Except.error e →
      processSticker env opt tree i tg = Except.error e) := by
  refine ⟨?_, ?_, ?_, ?_⟩
  · rw [importSuccesses, List.filterMap_eq_nil]
    intro r hr
    rw [importResults] at hr
    obtain ⟨p, _, hp⟩ := List.mem_map.mp hr
    cases processSticker_noupload env opt tree p.1 p.2 h with
    | inl hok => rw [← hp, hok]
    | inr herr => obtain ⟨e, he⟩ := herr; rw [← hp, he]
  · intro i tg
    exact processSticker_noupload env opt tree i tg h
  · intro i tg e hf
    simp [processSticker, hf]
  · intro i tg fp d p2 d2 wh e hf hd hc hsave hw
    simp [processSticker, hf, hd, hc, hsave, hw]

theorem noupload_no_records_witness :
    optNoUpload.noupload = true ∧
    importSuccesses envWebp optNoUpload [] packTwo = [] :=
  ⟨rfl, (noupload_no_records envWebp optNoUpload [] packTwo rfl).1⟩

/-- Claim C5 counterexample: with noformat set, the convert block
returns the ORIGINAL, still gzip-compressed payload [0, 1] with the
UNCHANGED .tgs hint, although the decompression of that payload yields
[2, 3, 4]: the decompressed bytes live only in the temp file, so the
claim that the decompressed bytes are returned with a renamed hint
fails on this input. -/
theorem noformat_counterexample :
    convertSticker envTgs optNoFormat "sticker.tgs" [0, 1]
      = Except.ok ("sticker.tgs", [0, 1], (5, 5))
  ∧ envTgs.gunzip [0, 1] = Except.ok [2, 3, 4]
  ∧ ([0, 1] : Bytes) ≠ [2, 3, 4]
  ∧ ("sticker.tgs" : String) ≠ "sticker.tgs.gif" :=
  ⟨rfl, rfl, by decide, by decide⟩

/-- Claim C5 (amended): for every animated sticker (hint ending in the
animation extension) processed with noformat, the convert step stops
after the decompression (into the temp file only) and size extraction,
and returns the original, still gzip-compressed payload unchanged with
the hint NOT renamed, together with the animation's native size; the
transcode is skipped. -/
theorem noformat_returns_compressed_unrenamed (env : Env) (opt : Opt)
    (filePath : String) (data decompressed : Bytes) (size : Nat × Nat)
    (htgs : strEndsWith filePath ".tgs" = true)
    (hnf : opt.noformat = true)
    (hgz : env.gunzip data = Except.ok decompressed)
    (hparse : env.animationSize decompressed = some size) :
    convertSticker env opt filePath data
      = Except.ok (filePath, data, size) := by
  simp [convertSticker, htgs, hgz, hparse, hnf]

theorem noformat_returns_compressed_unrenamed_witness :
    strEndsWith "sticker.tgs" ".tgs" = true ∧
    convertSticker envTgs optNoFormat "sticker.tgs" [0, 1]
      = Except.ok ("sticker.tgs", [0, 1], (5, 5)) :=
  ⟨by decide, noformat_returns_compressed_unrenamed envTgs optNoFormat
    "sticker.tgs" [0, 1] [2, 3, 4] (5, 5) (by decide) rfl rfl rfl⟩

/-- Claim C4 counterexample: a pack of two byte-identical stickers
against an empty store: both dedup lookups miss, the upload call is
made TWICE (not at most once), and the two records carry DIFFERENT
references mxc0 and mxc1 - the in-memory store is not updated during
the run, so the second occurrence is not a hit. -/
theorem dedup_within_run_counterexample :
    uploadCalls envWebp optPlain [] packTwo = 2
  ∧ (importSuccesses envWebp optPlain [] packTwo).map (fun s => s.mxc_url)
      = ["mxc0", "mxc1"]
  ∧ ("mxc0" : String) ≠ "mxc1" :=
  ⟨rfl, rfl, by decide⟩

/-- Claim C4 (amended): deduplication consults only the store as loaded
at the start of the pack import: when the fingerprint of a normalized
payload is present there, EVERY sticker with that payload skips the
upload and reuses the stored reference (so byte-identical payloads
resolve to the same reference); when it is absent, each occurrence in
the same run performs its own upload, because the in-memory store is
not updated during the parallel phase. -/
theorem dedup_only_against_loaded_store (env : Env) (tree : Tree)
    (i j : Nat) (tg tg2 : TgSticker) (fp fp2 : String) (d : Bytes)
    (wh wh2 : Nat × Nat) (url ext1 ext2 : String)
    (hext1 : pathExtension fp = some ext1)
    (hext2 : pathExtension fp2 = some ext2)
    (hhit : lookupTree tree (env.sha512 d) = some url) :
    uploadSticker env tree i tg fp d wh
      = Except.ok (⟨env.sha512 d, url, tg.file_id, tg.emoji, wh.1, wh.2,
          d.length, "image/" ++ ext1⟩, false)
  ∧ uploadSticker env tree j tg2 fp2 d wh2
      = Except.ok (⟨env.sha512 d, url, tg2.file_id, tg2.emoji, wh2.1, wh2.2,
          d.length, "image/" ++ ext2⟩, false) := by
  constructor
  · simp [uploadSticker, hext1, hhit]
  · simp [uploadSticker, hext2, hhit]

theorem dedup_only_against_loaded_store_witness :
    pathExtension "a.webp" = some "webp" ∧
    lookupTree treeStored (envWebp.sha512 [7]) = some "stored" ∧
    uploadSticker envWebp treeStored 0 tgOne "a.webp" [7] (512, 512)
      = Except.ok (⟨7, "stored", "f1", "e", 512, 512, 1,
          "image/" ++ "webp"⟩, false) :=
  ⟨by decide, rfl,
    (dedup_only_against_loaded_store envWebp treeStored 0 1 tgOne tgOne
      "a.webp" "a.webp" [7] (512, 512) (512, 512) "stored" "webp" "webp"
      (by decide) (by decide) rfl).1⟩

/-- Claim C3 counterexample: a single sticker whose fingerprint is
already in the store (a hit: no upload call is made), yet its
fingerprint-reference pair IS written to the persistent store again:
the append loop walks over ALL successes, so the appended set is not
restricted to the misses. -/
theorem append_hits_counterexample :
    lookupTree treeStored (envWebp.sha512 [7]) = some "stored"
  ∧ uploadCalls envWebp optPlain treeStored packOne = 0
  ∧ appendedRecords envWebp optPlain treeStored packOne = [(7, "stored")] :=
  ⟨rfl, rfl, rfl⟩

/-- Claim C3 (amended): after the parallel phase, when uploads are
enabled, the fingerprint-reference pair of EVERY success record - hit
and miss alike - is appended to the persistent store, one line per
success in success-vector order; in particular a record whose
fingerprint was already present at lookup time is appended again. -/
theorem append_every_success (env : Env) (opt : Opt) (tree : Tree)
    (pack : List TgSticker) (h : opt.noupload = false) :
    appendedRecords env opt tree pack
      = (importSuccesses env opt tree pack).map
          (fun s => (s.file_hash, s.mxc_url))
  ∧ (∀ i tg r b, (i, tg) ∈ pack.enum →
      processSticker env opt tree i tg = Except.ok (some r, b) →
      (r.file_hash, r.mxc_url) ∈ appendedRecords env opt tree pack) := by
  have happ : appendedRecords env opt tree pack
      = (importSuccesses env opt tree pack).map
          (fun s => (s.file_hash, s.mxc_url)) := by
    rw [appendedRecords, h]
    simp
  refine ⟨happ, ?_⟩
  intro i tg r b hmem hproc
  have h1 : processSticker env opt tree i tg ∈ importResults env opt tree pack :=
    List.mem_map_of_mem (fun p => processSticker env opt tree p.1 p.2) hmem
  have h2 : r ∈ importSuccesses env opt tree pack := by
    rw [importSuccesses]
    apply List.mem_filterMap.mpr
    refine ⟨processSticker env opt tree i tg, h1, ?_⟩
    rw [hproc]
  rw [happ]
  exact List.mem_map_of_mem (fun s => (s.file_hash, s.mxc_url)) h2

theorem append_every_success_witness :
    optPlain.noupload = false ∧
    appendedRecords envWebp optPlain treeStored packOne
      = (importSuccesses envWebp optPlain treeStored packOne).map
          (fun s => (s.file_hash, s.mxc_url)) :=
  ⟨rfl, (append_every_success envWebp optPlain treeStored packOne rfl).1⟩

theorem loadLines_all_ok (parse : String → Except String (HashT × String))
    (lines : List String) (tree : Tree) (warns : List (Nat × String))
    (i : Nat) :
    loadLines parse tree warns i (lines.map Except.ok)
      = Except.ok
          ((lines.filterMap (fun s => (parse s).toOption)).foldl
            (fun t r => insertTree t r.1 r.2) tree,
           warns ++ (List.enumFrom i lines).filterMap (fun p =>
             match parse p.2 with
             | Except.error err => some (p.1 + 1, err)
             | Except.ok _ => none)) := by
  induction lines generalizing tree warns i with
  | nil => simp [loadLines]
  | cons s rest ih =>
    cases hp : parse s with
    | ok r =>
      have hstep : loadLines parse tree warns i ((s :: rest).map Except.ok)
          = loadLines parse (insertTree tree r.1 r.2) warns (i + 1)
              (rest.map Except.ok) := by
        simp [loadLines, hp]
      rw [hstep, ih]
      simp [List.enumFrom, List.filterMap_cons, hp, Except.toOption]
    | error e =>
      have hstep : loadLines parse tree warns i ((s :: rest).map Except.ok)
          = loadLines parse tree (warns ++ [(i + 1, e)]) (i + 1)
              (rest.map Except.ok) := by
        simp [loadLines, hp]
      rw [hstep, ih]
      simp [List.enumFrom, List.filterMap_cons, hp, Except.toOption]

/-- Claim C6 counterexample: an unreadable (not merely missing) store
file IS fatal to the import: File::open failing with any error other
than not-found makes the load - and with it import_pack - return that
error instead of continuing without a store. -/
theorem store_unreadable_fatal_counterexample :
    loadDatabase (FileOpen.otherError "permission denied")
        (fun _ => Except.error "unused")
      = Except.error "permission denied" := rfl

/-- Claim C6 (amended): loading the fingerprint store is tolerant of a
missing file (treated as the empty store) and of malformed record
content (each malformed readable line is skipped with a warning that
carries its 1-based line number, while all well-formed lines are still
loaded); but an UNREADABLE store file is fatal to that pack's import:
a non-not-found open error is returned, aborting import_pack. -/
theorem load_database_tolerance
    (parse : String → Except String (HashT × String))
    (lines : List String) (e : String) :
    loadDatabase FileOpen.notFound parse = Except.ok ([], [])
  ∧ loadDatabase (FileOpen.opened (lines.map Except.ok)) parse
      = Except.ok
          ((lines.filterMap (fun s => (parse s).toOption)).foldl
            (fun t r => insertTree t r.1 r.2) [],
           lines.enum.filterMap (fun p =>
             match parse p.2 with
             | Except.error err => some (p.1 + 1, err)
             | Except.ok _ => none))
  ∧ loadDatabase (FileOpen.otherError e) parse = Except.error e := by
  refine ⟨rfl, ?_, rfl⟩
  have hload : loadDatabase (FileOpen.opened (lines.map Except.ok)) parse
      = loadLines parse [] [] 0 (lines.map Except.ok) := rfl
  rw [hload, loadLines_all_ok]
  have henum : List.enumFrom 0 lines = lines.enum := rfl
  rw [henum, List.nil_append]

theorem lookupTree_insertTree_self (t : Tree) (k : HashT) (v : String) :
    lookupTree (insertTree t k v) k = some v := by
  induction t with
  | nil => simp [insertTree, lookupTree]
  | cons p rest ih =>
    obtain ⟨k1, v1⟩ := p
    by_cases hk : k1 = k
    · simp [insertTree, hk, lookupTree]
    · simp [insertTree, hk, lookupTree, ih]

theorem lookupTree_insertTree_ne (t : Tree) (k k2 : HashT) (v : String)
    (h : k2 ≠ k) : lookupTree (insertTree t k2 v) k = lookupTree t k := by
  induction t with
  | nil => simp [insertTree, lookupTree, h]
  | cons p rest ih =>
    obtain ⟨k1, v1⟩ := p
    by_cases hk : k1 = k2
    · subst hk
      have hk1 : ¬k1 = k := fun hx => h hx
      simp [insertTree, lookupTree, hk1]
    · simp [insertTree, hk, lookupTree, ih]

theorem lookup_foldl_insert_of_not_mem (rs : List (HashT × String)) (t : Tree)
    (k : HashT) (h : ∀ p ∈ rs, p.1 ≠ k) :
    lookupTree (rs.foldl (fun t2 r => insertTree t2 r.1 r.2) t) k
      = lookupTree t k := by
  induction rs generalizing t with
  | nil => rfl
  | cons r rest ih =>
    simp only [List.foldl_cons]
    rw [ih _ (fun p hp => h p (List.mem_cons_of_mem r hp))]
    exact lookupTree_insertTree_ne t k r.1 r.2 (h r (List.mem_cons_self r rest))

theorem lookup_foldl_insert_last (rs1 rs2 : List (HashT × String)) (t : Tree)
    (k : HashT) (v : String) (h : ∀ p ∈ rs2, p.1 ≠ k) :
    lookupTree ((rs1 ++ (k, v) :: rs2).foldl
      (fun t2 r => insertTree t2 r.1 r.2) t) k = some v := by
  rw [List.foldl_append, List.foldl_cons]
  rw [lookup_foldl_insert_of_not_mem rs2 _ k h]
  exact lookupTree_insertTree_self _ k v

theorem filterMap_toOption_of_map_ok {γ : Type u}
    (rs : List γ) :
    (rs.map (Except.ok : γ → Except String γ)).filterMap Except.toOption
      = rs := by
  induction rs with
  | nil => rfl
  | cons r rest ih => simp [List.filterMap_cons, Except.toOption, ih]

theorem mem_enumFrom_snd {α : Type u} (l : List α) (i : Nat) (p : Nat × α)
    (h : p ∈ List.enumFrom i l) : p.2 ∈ l := by
  induction l generalizing i with
  | nil => simp [List.enumFrom] at h
  | cons x rest ih =>
    simp only [List.enumFrom, List.mem_cons] at h
    cases h with
    | inl h0 => subst h0; exact List.mem_cons_self x rest
    | inr h1 => exact List.mem_cons_of_mem x (ih (i + 1) h1)

/-- Claim C10: when the persisted store file contains several
well-formed records with the same fingerprint, loading keeps the
reference of the LAST such line: each later duplicate overwrites the
earlier one in the in-memory map, so a subsequent lookup of that
fingerprint returns the reference of the last occurrence in file
order. -/
theorem load_duplicate_keeps_last
    (parse : String → Except String (HashT × String)) (lines : List String)
    (rs1 rs2 : List (HashT × String)) (k : HashT) (v : String)
    (hparse : lines.map parse = (rs1 ++ (k, v) :: rs2).map Except.ok)
    (hlast : ∀ p ∈ rs2, p.1 ≠ k) :
    ∃ tree, loadDatabase (FileOpen.opened (lines.map Except.ok)) parse
        = Except.ok (tree, [])
      ∧ lookupTree tree k = some v := by
  have hload : loadDatabase (FileOpen.opened (lines.map Except.ok)) parse
      = loadLines parse [] [] 0 (lines.map Except.ok) := rfl
  have hfm : lines.filterMap (fun s => (parse s).toOption)
      = rs1 ++ (k, v) :: rs2 := by
    have h1 : lines.filterMap (fun s => (parse s).toOption)
        = (lines.map parse).filterMap Except.toOption := by
      rw [List.filterMap_map]
      rfl
    rw [h1, hparse, filterMap_toOption_of_map_ok]
  have hallok : ∀ s ∈ lines, ∃ r, parse s = Except.ok r := by
    intro s hs
    have hmem : parse s ∈ lines.map parse := List.mem_map_of_mem parse hs
    rw [hparse] at hmem
    obtain ⟨r, _, hr⟩ := List.mem_map.mp hmem
    exact ⟨r, hr.symm⟩
  have hwarn : (List.enumFrom 0 lines).filterMap (fun p =>
      match parse p.2 with
      | Except.error err => some (p.1 + 1, err)
      | Except.ok _ => none) = [] := by
    rw [List.filterMap_eq_nil]
    intro p hp
    obtain ⟨r, hr⟩ := hallok p.2 (mem_enumFrom_snd lines 0 p hp)
    rw [hr]
  refine ⟨(rs1 ++ (k, v) :: rs2).foldl (fun t2 r => insertTree t2 r.1 r.2) [],
    ?_, lookup_foldl_insert_last rs1 rs2 [] k v hlast⟩
  rw [hload, loadLines_all_ok, hfm, hwarn]
  rfl

theorem load_duplicate_keeps_last_witness :
    ∃ tree,
      loadDatabase (FileOpen.opened (["a", "b"].map Except.ok))
          (fun s => if s = "a" then Except.ok (1, "u1")
            else if s = "b" then Except.ok (1, "u2")
            else Except.error "mal")
        = Except.ok (tree, [])
      ∧ lookupTree tree 1 = some "u2" :=
  load_duplicate_keeps_last
    (fun s => if s = "a" then Except.ok (1, "u1")
      else if s = "b" then Except.ok (1, "u2")
      else Except.error "mal")
    ["a", "b"] [(1, "u1")] [] 1 "u2" rfl (by simp)

/-- Claim C7 counterexample: in a run over two packs where the first
pack's metadata fetch fails, the run stops at the failing pack: the
second pack is never processed, so the remaining packs of a multi-pack
run ARE affected. -/
theorem pack_failure_counterexample :
    runLoop importOneAborts ["A", "B"] = ([], some "metadata fetch failed")
  ∧ "B" ∉ (runLoop importOneAborts ["A", "B"]).1 :=
  ⟨rfl, by decide⟩

/-- Claim C7 (amended): when one pack's import fails (for instance its
initial metadata fetch), the error propagates to the caller and aborts
the WHOLE run: the packs before the failing one have already been
imported, and the packs after it are not processed at all. -/
theorem pack_failure_aborts_run (f : String → Except String Unit)
    (before after : List String) (p : String) (e : String)
    (hok : ∀ q ∈ before, f q = Except.ok ())
    (hfail : f p = Except.error e) :
    runLoop f (before ++ p :: after) = (before, some e) := by
  induction before with
  | nil =>
    simp only [List.nil_append, runLoop, hfail]
  | cons q rest ih =>
    have hq : f q = Except.ok () := hok q (List.mem_cons_self q rest)
    have hrest := ih (fun q2 hq2 => hok q2 (List.mem_cons_of_mem q hq2))
    simp only [List.cons_append, runLoop, hq]
    rw [List.append_eq, hrest]

theorem pack_failure_aborts_run_witness :
    (∀ q ∈ ["B"], importOneAborts q = Except.ok ()) ∧
    runLoop importOneAborts (["B"] ++ "A" :: ["C"])
      = (["B"], some "metadata fetch failed") := by
  have hok : ∀ q ∈ ["B"], importOneAborts q = Except.ok () := by
    intro q hq
    simp only [List.mem_singleton] at hq
    subst hq
    rfl
  exact ⟨hok, pack_failure_aborts_run importOneAborts ["B"] ["C"] "A"
    "metadata fetch failed" hok rfl⟩

end MStickerEditor
